import Mathlib

/-
Verification of the OpenBook v1 CLI (src/main.rs) against its
natural-language specification.

The embedding models the command dispatcher, the batch submitter
(execute_limited_cancel), the confirmation waiter (show_tx), and the
open-orders resolver as pure Lean functions over an oracle environment
(MainEnv) that fixes the outcome of every collaborator call for one
invocation.  Each modelled function additionally returns the ordered
trace of observable events (collaborator calls, sleeps, log lines) so
that sequencing claims can be stated.
-/

namespace OpenBook

/-- Side of an order, from openbook::matching::Side as used in main.rs. -/
inductive Side where
  | Bid
  | Ask
deriving DecidableEq, Repr

/-- OrderReturnType from openbook::v1::orders: either a batch of unsigned
instructions or a finalized transaction signature. -/
inductive OrderReturnType (Inst Sig : Type) where
  | Instructions : List Inst → OrderReturnType Inst Sig
  | Signature : Sig → OrderReturnType Inst Sig
deriving DecidableEq, Repr

/-- The fetched confirmed transaction, as consumed by show_tx: the inner
encoded transaction may fail to decode (decode returns an option), and
the metadata is optional. -/
structure FetchedTx (Tx Meta : Type) where
  decoded : Option Tx
  meta : Option Meta
deriving DecidableEq, Repr

/-- Event queue stats returned by fetch_event_queue_stats. -/
structure EventQueueStats where
  count : Nat
  head : Nat
  seq_num : Nat
  account_flags : Nat
deriving DecidableEq, Repr

/-- Errors surfaced by the dispatcher.  marketParseError models the
external ParsePubkeyError from market_id.parse(): that error value does
not carry the offending input string.  invalidOpenOrders models the
anyhow error built in parse_open_orders, which does name the offending
entry.  ext lifts any collaborator (network) error. -/
inductive AppError (E : Type) where
  | marketParseError : AppError E
  | invalidOpenOrders : String → AppError E
  | ext : E → AppError E
deriving DecidableEq, Repr

/-- Outcome of an invocation: clean exit, an error propagated out of main,
or a process abort via a panicking expect. -/
inductive Outcome (E : Type) where
  | ok : Outcome E
  | error : AppError E → Outcome E
  | panicked : String → Outcome E
deriving DecidableEq, Repr

/-- Observable events of one invocation, in program order. -/
inductive Ev (PK Inst Sig : Type) where
  | setProgramId : String → Ev PK Inst Sig
  | clientNew : Ev PK Inst Sig
  | fetchEventQueueStats : Ev PK Inst Sig
  | placeLimitOrder : Side → Bool → Ev PK Inst Sig
  | cancelOrders : Bool → Ev PK Inst Sig
  | settleBalance : Bool → Ev PK Inst Sig
  | matchOrders : Nat → Ev PK Inst Sig
  | cancelSettlePlace : Ev PK Inst Sig
  | cancelSettlePlaceBid : Ev PK Inst Sig
  | cancelSettlePlaceAsk : Ev PK Inst Sig
  | consumeEvents : List PK → Nat → Ev PK Inst Sig
  | consumeEventsPermissioned : List PK → Nat → Ev PK Inst Sig
  | scanQueue : Nat → Ev PK Inst Sig
  | loadOrders : Ev PK Inst Sig
  | findOpenOrders : Ev PK Inst Sig
  | sendAndConfirm : List Inst → Ev PK Inst Sig
  | fetchTransaction : Sig → Ev PK Inst Sig
  | sleep : Nat → Ev PK Inst Sig
  | logInfo : Ev PK Inst Sig
  | logError : Ev PK Inst Sig
  | printErr : Ev PK Inst Sig
  | printTx : Ev PK Inst Sig
deriving DecidableEq, Repr

/-- Which events are network interactions.  Client construction is an
awaited remote-client instantiation against the RPC node (the spec
calls the client handle the shared connection resource), so it counts;
sleeps, log lines and the process-environment write do not. -/
def isNetworkCall {PK Inst Sig : Type} : Ev PK Inst Sig → Bool
  | .setProgramId _ => false
  | .sleep _ => false
  | .logInfo => false
  | .logError => false
  | .printErr => false
  | .printTx => false
  | _ => true

/-- CRANK_DELAY_MS from main.rs. -/
def CRANK_DELAY_MS : Nat := 50000

/-- MAX_CANCEL_ORDERS from main.rs. -/
def MAX_CANCEL_ORDERS : Nat := 5

/-- MAX_CANCEL_ORDERS_PER_TX from main.rs. -/
def MAX_CANCEL_ORDERS_PER_TX : Nat := 5

/-- ASCII lowercasing of one character, as in str::to_ascii_lowercase. -/
def asciiLowerChar (c : Char) : Char :=
  if 'A' ≤ c ∧ c ≤ 'Z' then Char.ofNat (c.toNat + 32) else c

/-- ASCII lowercasing of a string, as in str::to_ascii_lowercase:
every character is lowercased independently. -/
def asciiLower (s : String) : String :=
  ⟨s.data.map asciiLowerChar⟩

/-- The side match in the Place arm of main: bid and ask map to their
sides, anything else falls to the wildcard arm and becomes Bid. -/
def side_of_string (s : String) : Side :=
  if asciiLower s = "bid" then Side.Bid
  else if asciiLower s = "ask" then Side.Ask
  else Side.Bid

/-- Partition a list into consecutive chunks of at most n elements,
preserving order, as slice::chunks does in Rust.  The n = 0 case is
unreachable from the code (the caller passes max_instructions_per_tx
max 1) and is given a harmless total value. -/
def chunksOf {α : Type} (n : Nat) (l : List α) : List (List α) :=
  match l with
  | [] => []
  | x :: xs =>
    if hn : n = 0 then [x :: xs]
    else (x :: xs).take n :: chunksOf n ((x :: xs).drop n)
termination_by l.length
decreasing_by
  rw [List.length_drop]
  have h2 : 0 < n := Nat.pos_of_ne_zero hn
  simp only [List.length_cons]
  omega

theorem chunksOf_flatten {α : Type} (n : Nat) (l : List α) :
    (chunksOf n l).flatten = l := by
  match l with
  | [] =>
    rw [chunksOf]
    rfl
  | x :: xs =>
    rw [chunksOf]
    split
    · simp
    · rw [List.flatten_cons, chunksOf_flatten n ((x :: xs).drop n)]
      exact List.take_append_drop n (x :: xs)
termination_by l.length
decreasing_by
  rw [List.length_drop]
  have h2 : 0 < n := Nat.pos_of_ne_zero (by assumption)
  simp only [List.length_cons]
  omega

theorem chunksOf_length {α : Type} (n : Nat) (hn : 0 < n) (l : List α) :
    (chunksOf n l).length = (l.length + n - 1) / n := by
  match l with
  | [] =>
    rw [chunksOf]
    simp only [List.length_nil, Nat.zero_add]
    exact (Nat.div_eq_of_lt (by omega)).symm
  | x :: xs =>
    rw [chunksOf]
    split
    · omega
    · rw [List.length_cons, chunksOf_length n hn ((x :: xs).drop n),
        List.length_drop]
      have hL : 0 < (x :: xs).length := by simp
      rcases Nat.lt_or_ge (x :: xs).length n with hlt | hge
      · have h0 : (x :: xs).length - n = 0 := by omega
        rw [h0]
        have hr : (0 + n - 1) / n = 0 := Nat.div_eq_of_lt (by omega)
        rw [hr]
        have hone : ((x :: xs).length + n - 1) / n = 1 := by
          apply Nat.div_eq_of_lt_le <;> omega
        omega
      · have h1 : (x :: xs).length - n + n - 1 = (x :: xs).length - 1 := by
          omega
        have h2 : (x :: xs).length + n - 1 = (x :: xs).length - 1 + n := by
          omega
        rw [h1, h2, Nat.add_div_right _ hn]
termination_by l.length
decreasing_by
  rw [List.length_drop]
  have h2 : 0 < n := Nat.pos_of_ne_zero (by assumption)
  simp only [List.length_cons]
  omega

/-- Oracle environment fixing the outcome of every collaborator call for
one invocation.  PK is the pubkey type, Inst the instruction type, Sig
the signature type, Tx and Meta the decoded transaction and its
metadata, E the collaborator error type.  parsePk models
Pubkey::from_str (used both for the market id and for open-orders
entries); per-call parameters that the claims never inspect are not
threaded into the oracle results. -/
structure MainEnv (PK Inst Sig Tx Meta E : Type) where
  parsePk : String → Option PK
  clientNew : Except E Unit
  ooKey : PK
  placeResult : Except E (Option (OrderReturnType Inst Sig))
  cancelOrdersResult : Except E (Option (OrderReturnType Inst Sig))
  settleResult : Except E (Option (OrderReturnType Inst Sig))
  matchResult : Except E (Bool × Sig)
  cspResult : Except E (Bool × Sig)
  cspBidResult : Except E (Bool × Sig)
  cspAskResult : Except E (Bool × Sig)
  consumeResult : Except E (Bool × Sig)
  consumePermResult : Except E (Bool × Sig)
  scanQueue : Nat → Except E (List PK)
  loadOrdersResult : Except E Nat
  findOpenOrdersResult : Except E Nat
  sendAndConfirm : List Inst → Except E Sig
  fetchTransaction : Sig → Except E (FetchedTx Tx Meta)
  eventQueueStats : Except E EventQueueStats

section Model

variable {PK Inst Sig Tx Meta E : Type}

/-- The show_tx function: sleep CRANK_DELAY_MS, then fetch the
transaction; on a successful fetch decode it (expect panics with
message Successful decode when decoding fails) and print it; on a fetch
error log the condition and return Ok. -/
def show_tx (env : MainEnv PK Inst Sig Tx Meta E) (sg : Sig) :
    List (Ev PK Inst Sig) × Outcome E :=
  let rest : List (Ev PK Inst Sig) × Outcome E :=
    match env.fetchTransaction sg with
    | .ok ftx =>
      match ftx.decoded with
      | some _ => ([Ev.printTx], Outcome.ok)
      | none => ([], Outcome.panicked "Successful decode")
    | .error _ => ([Ev.logError], Outcome.ok)
  (Ev.sleep CRANK_DELAY_MS :: Ev.fetchTransaction sg :: rest.1, rest.2)

/-- The handle_order_return function: log the instruction batch, or log
the signature and run show_tx. -/
def handle_order_return (env : MainEnv PK Inst Sig Tx Meta E)
    (ort : OrderReturnType Inst Sig) : List (Ev PK Inst Sig) × Outcome E :=
  match ort with
  | .Instructions _ => ([Ev.logInfo], Outcome.ok)
  | .Signature sg =>
    let s := show_tx env sg
    (Ev.logInfo :: s.1, s.2)

/-- Result of the submission loop in execute_limited_cancel: the emitted
events (one sendAndConfirm per attempted chunk), the chunks whose
submission succeeded, and the propagated result. -/
structure CancelRun (PK Inst Sig E : Type) where
  events : List (Ev PK Inst Sig)
  submitted : List (List Inst)
  result : Except E (Option Sig)

/-- The for-loop of execute_limited_cancel: submit each chunk in order,
remembering the last signature; on the first failing submission the
question-mark operator aborts the loop and propagates the error. -/
def submit_chunks (send : List Inst → Except E Sig) :
    List (List Inst) → Option Sig → CancelRun PK Inst Sig E
  | [], last => ⟨[], [], Except.ok last⟩
  | c :: cs, _ =>
    match send c with
    | .error e => ⟨[Ev.sendAndConfirm c], [], Except.error e⟩
    | .ok sg =>
      let r := submit_chunks send cs (some sg)
      ⟨Ev.sendAndConfirm c :: r.events, c :: r.submitted, r.result⟩

/-- The execute_limited_cancel function: ask cancel_orders(false) for the
instruction batch; return Ok(None) when there is no batch (no result,
a signature result, or an empty batch); otherwise truncate to the first
max_instructions instructions, split into chunks of
max_instructions_per_tx.max(1), and submit them sequentially. -/
def execute_limited_cancel (env : MainEnv PK Inst Sig Tx Meta E)
    (max_instructions max_instructions_per_tx : Nat) :
    CancelRun PK Inst Sig E :=
  match env.cancelOrdersResult with
  | .error e => ⟨[Ev.cancelOrders false], [], Except.error e⟩
  | .ok none => ⟨[Ev.cancelOrders false], [], Except.ok none⟩
  | .ok (some (.Signature _)) => ⟨[Ev.cancelOrders false], [], Except.ok none⟩
  | .ok (some (.Instructions insts)) =>
    if insts.isEmpty then ⟨[Ev.cancelOrders false], [], Except.ok none⟩
    else
      let r := submit_chunks env.sendAndConfirm
        (chunksOf (Nat.max max_instructions_per_tx 1)
          (insts.take max_instructions)) none
      ⟨Ev.cancelOrders false :: r.events, r.submitted, r.result⟩

/-- The parse_open_orders function: parse each entry in order; the first
entry that fails to parse aborts the whole loop with an error naming
that entry. -/
def parse_open_orders (parsePk : String → Option PK) :
    List String → Except (AppError E) (List PK)
  | [] => Except.ok []
  | key :: rest =>
    match parsePk key with
    | none => Except.error (AppError.invalidOpenOrders key)
    | some p =>
      match parse_open_orders parsePk rest with
      | .error e => Except.error e
      | .ok ps => Except.ok (p :: ps)

/-- The open-orders resolution performed in the Consume and
ConsumePermissioned arms of main: an explicit non-empty list is parsed
with parse_open_orders; an empty list triggers the event-queue scan,
whose empty result falls back to the callers own open-orders key. -/
def resolve_open_orders (env : MainEnv PK Inst Sig Tx Meta E)
    (limit : Nat) (explicit : List String) :
    List (Ev PK Inst Sig) × Except (AppError E) (List PK) :=
  if explicit.isEmpty then
    match env.scanQueue limit with
    | .error e => ([Ev.scanQueue limit], Except.error (AppError.ext e))
    | .ok owners =>
      ([Ev.scanQueue limit],
       Except.ok (if owners.isEmpty then [env.ooKey] else owners))
  else ([], parse_open_orders env.parsePk explicit)

end Model

/-- Arguments of the Place subcommand; F stands in for the f64 fields. -/
structure PlaceArgs (F : Type) where
  target_amount_quote : F
  side : String
  best_offset_usdc : F
  execute : Bool
  price_target : F

/-- Arguments of the Cancel subcommand. -/
structure CancelArgs where
  execute : Bool

/-- Arguments of the Settle subcommand. -/
structure SettleArgs where
  execute : Bool

/-- Arguments of the Match subcommand. -/
structure MatchArgs where
  limit : Nat

/-- Arguments of the CancelSettlePlace subcommand. -/
structure CancelSettlePlaceArgs (F : Type) where
  usdc_ask_target : F
  target_usdc_bid : F
  price_jlp_usdc_bid : F
  ask_price_jlp_usdc : F

/-- Arguments of the CancelSettlePlaceBid subcommand. -/
structure CancelSettlePlaceBidArgs (F : Type) where
  target_size_usdc_bid : F
  bid_price_jlp_usdc : F

/-- Arguments of the CancelSettlePlaceAsk subcommand. -/
structure CancelSettlePlaceAskArgs (F : Type) where
  target_size_usdc_ask : F
  ask_price_jlp_usdc : F

/-- Arguments of the Consume subcommand. -/
structure ConsumeArgs where
  limit : Nat
  open_orders : List String

/-- Arguments of the ConsumePermissioned subcommand. -/
structure ConsumePermissionedArgs where
  limit : Nat
  open_orders : List String

/-- The twelve subcommands of the CLI. -/
inductive Commands (F : Type) where
  | Info : Commands F
  | EventQueue : Commands F
  | Place : PlaceArgs F → Commands F
  | Cancel : CancelArgs → Commands F
  | Settle : SettleArgs → Commands F
  | Match : MatchArgs → Commands F
  | CancelSettlePlace : CancelSettlePlaceArgs F → Commands F
  | CancelSettlePlaceBid : CancelSettlePlaceBidArgs F → Commands F
  | CancelSettlePlaceAsk : CancelSettlePlaceAskArgs F → Commands F
  | Consume : ConsumeArgs → Commands F
  | ConsumePermissioned : ConsumePermissionedArgs → Commands F
  | LoadOrders : Commands F
  | FindOpenOrders : Commands F

/-- Top-level CLI arguments. -/
structure Cli (F : Type) where
  verbose : Nat
  market_id : String
  program_id : String
  command : Commands F

section Main

variable {PK Inst Sig Tx Meta E F : Type}

/-- The main function: set the program-id environment variable, parse the
market id (its parse error does not carry the input string), construct
the client, then dispatch on the subcommand exactly as the match in
main.rs does, emitting events in program order. -/
def runMain (env : MainEnv PK Inst Sig Tx Meta E) (cli : Cli F) :
    List (Ev PK Inst Sig) × Outcome E :=
  let pre0 : List (Ev PK Inst Sig) := [Ev.setProgramId cli.program_id]
  match env.parsePk cli.market_id with
  | none => (pre0, Outcome.error AppError.marketParseError)
  | some _ =>
    match env.clientNew with
    | .error e => (pre0 ++ [Ev.clientNew], Outcome.error (AppError.ext e))
    | .ok _ =>
      let pre := pre0 ++ [Ev.clientNew]
      match cli.command with
      | .Info => (pre ++ [Ev.logInfo], Outcome.ok)
      | .EventQueue =>
        match env.eventQueueStats with
        | .error e =>
          (pre ++ [Ev.fetchEventQueueStats], Outcome.error (AppError.ext e))
        | .ok _ => (pre ++ [Ev.fetchEventQueueStats, Ev.logInfo], Outcome.ok)
      | .Place arg =>
        let sd := side_of_string arg.side
        match env.placeResult with
        | .error e =>
          (pre ++ [Ev.placeLimitOrder sd arg.execute],
           Outcome.error (AppError.ext e))
        | .ok none => (pre ++ [Ev.placeLimitOrder sd arg.execute], Outcome.ok)
        | .ok (some ort) =>
          let r := handle_order_return env ort
          (pre ++ Ev.placeLimitOrder sd arg.execute :: r.1, r.2)
      | .Cancel arg =>
        if arg.execute then
          let r := execute_limited_cancel env MAX_CANCEL_ORDERS
            MAX_CANCEL_ORDERS_PER_TX
          match r.result with
          | .error e => (pre ++ r.events, Outcome.error (AppError.ext e))
          | .ok none => (pre ++ r.events, Outcome.ok)
          | .ok (some sg) =>
            let s := show_tx env sg
            (pre ++ r.events ++ Ev.logInfo :: s.1, s.2)
        else
          match env.cancelOrdersResult with
          | .error e =>
            (pre ++ [Ev.cancelOrders false], Outcome.error (AppError.ext e))
          | .ok none => (pre ++ [Ev.cancelOrders false], Outcome.ok)
          | .ok (some ort) =>
            let r := handle_order_return env ort
            (pre ++ Ev.cancelOrders false :: r.1, r.2)
      | .Settle arg =>
        match env.settleResult with
        | .error e =>
          (pre ++ [Ev.settleBalance arg.execute],
           Outcome.error (AppError.ext e))
        | .ok none => (pre ++ [Ev.settleBalance arg.execute], Outcome.ok)
        | .ok (some ort) =>
          let r := handle_order_return env ort
          (pre ++ Ev.settleBalance arg.execute :: r.1, r.2)
      | .Match arg =>
        match env.matchResult with
        | .error e =>
          (pre ++ [Ev.matchOrders arg.limit], Outcome.error (AppError.ext e))
        | .ok (_, sg) =>
          let s := show_tx env sg
          (pre ++ Ev.matchOrders arg.limit :: Ev.logInfo :: s.1, s.2)
      | .CancelSettlePlace _ =>
        match env.cspResult with
        | .error e =>
          (pre ++ [Ev.cancelSettlePlace], Outcome.error (AppError.ext e))
        | .ok (_, sg) =>
          let s := show_tx env sg
          (pre ++ Ev.cancelSettlePlace :: Ev.logInfo :: s.1, s.2)
      | .CancelSettlePlaceBid _ =>
        match env.cspBidResult with
        | .error e =>
          (pre ++ [Ev.cancelSettlePlaceBid], Outcome.error (AppError.ext e))
        | .ok (_, sg) =>
          let s := show_tx env sg
          (pre ++ Ev.cancelSettlePlaceBid :: Ev.logInfo :: s.1, s.2)
      | .CancelSettlePlaceAsk _ =>
        match env.cspAskResult with
        | .error e =>
          (pre ++ [Ev.cancelSettlePlaceAsk], Outcome.error (AppError.ext e))
        | .ok (_, sg) =>
          let s := show_tx env sg
          (pre ++ Ev.cancelSettlePlaceAsk :: Ev.logInfo :: s.1, s.2)
      | .Consume arg =>
        let ro := resolve_open_orders env arg.limit arg.open_orders
        match ro.2 with
        | .error e => (pre ++ ro.1, Outcome.error e)
        | .ok accts =>
          match env.consumeResult with
          | .error e =>
            (pre ++ ro.1 ++ [Ev.consumeEvents accts arg.limit],
             Outcome.error (AppError.ext e))
          | .ok (_, sg) =>
            let s := show_tx env sg
            (pre ++ ro.1 ++
              Ev.consumeEvents accts arg.limit :: Ev.logInfo :: s.1, s.2)
      | .ConsumePermissioned arg =>
        let ro := resolve_open_orders env arg.limit arg.open_orders
        match ro.2 with
        | .error e => (pre ++ ro.1, Outcome.error e)
        | .ok accts =>
          match env.consumePermResult with
          | .error e =>
            (pre ++ ro.1 ++ [Ev.consumeEventsPermissioned accts arg.limit],
             Outcome.error (AppError.ext e))
          | .ok (_, sg) =>
            let s := show_tx env sg
            (pre ++ ro.1 ++
              Ev.consumeEventsPermissioned accts arg.limit ::
                Ev.logInfo :: s.1, s.2)
      | .LoadOrders =>
        match env.loadOrdersResult with
        | .ok _ => (pre ++ [Ev.loadOrders, Ev.logInfo], Outcome.ok)
        | .error _ => (pre ++ [Ev.loadOrders, Ev.printErr], Outcome.ok)
      | .FindOpenOrders =>
        match env.findOpenOrdersResult with
        | .ok _ => (pre ++ [Ev.findOpenOrders, Ev.logInfo], Outcome.ok)
        | .error _ => (pre ++ [Ev.findOpenOrders, Ev.printErr], Outcome.ok)

end Main

/-- Does a cancel_orders result carry no usable instruction batch?  True
for no result, for a signature result, and for an empty batch. -/
def isNoBatch {Inst Sig E : Type} :
    Except E (Option (OrderReturnType Inst Sig)) → Bool
  | .ok none => true
  | .ok (some (.Signature _)) => true
  | .ok (some (.Instructions l)) => l.isEmpty
  | .error _ => false

section Lemmas

variable {PK Inst Sig Tx Meta E : Type}

theorem submit_chunks_all_ok (send : List Inst → Except E Sig)
    (cs : List (List Inst)) (last : Option Sig)
    (h : ∀ c ∈ cs, ∃ s, send c = Except.ok s) :
    (submit_chunks send cs last : CancelRun PK Inst Sig E).submitted = cs ∧
    (submit_chunks send cs last : CancelRun PK Inst Sig E).events =
      cs.map Ev.sendAndConfirm ∧
    ∃ r, (submit_chunks send cs last : CancelRun PK Inst Sig E).result =
      Except.ok r := by
  induction cs generalizing last with
  | nil => exact ⟨rfl, rfl, last, rfl⟩
  | cons c cs ih =>
    obtain ⟨s, hs⟩ := h c (List.mem_cons_self c cs)
    have ih2 := ih (some s) fun d hd => h d (List.mem_cons_of_mem _ hd)
    refine ⟨?_, ?_, ?_⟩ <;>
      simp only [submit_chunks, hs, List.map_cons, ih2.1, ih2.2.1]
    exact ih2.2.2

theorem submit_chunks_last_sig (send : List Inst → Except E Sig)
    (cs : List (List Inst)) (last : Option Sig) (s : Sig)
    (h : (submit_chunks send cs last : CancelRun PK Inst Sig E).result =
      Except.ok (some s)) :
    (∃ c, (submit_chunks send cs last :
        CancelRun PK Inst Sig E).submitted.getLast? = some c ∧
      send c = Except.ok s) ∨
    ((submit_chunks send cs last :
        CancelRun PK Inst Sig E).submitted = [] ∧ last = some s) := by
  induction cs generalizing last with
  | nil =>
    right
    refine ⟨rfl, ?_⟩
    have h2 : (Except.ok last : Except E (Option Sig)) = Except.ok (some s) := h
    injection h2
  | cons c cs ih =>
    cases hs : send c with
    | error e =>
      simp only [submit_chunks, hs] at h
      exact absurd h (by simp)
    | ok sg =>
      simp only [submit_chunks, hs] at h ⊢
      rcases ih (some sg) h with ⟨c2, hlast, hsend⟩ | ⟨hsub, hlasteq⟩
      · left
        refine ⟨c2, ?_, hsend⟩
        cases hcs : (submit_chunks send cs (some sg) :
            CancelRun PK Inst Sig E).submitted with
        | nil => rw [hcs] at hlast; simp at hlast
        | cons d ds =>
          rw [hcs] at hlast
          rw [List.getLast?_cons_cons]
          exact hlast
      · left
        have hsg : sg = s := by injection hlasteq
        subst hsg
        rw [hsub]
        exact ⟨c, rfl, hs⟩

theorem submit_chunks_fail_at (send : List Inst → Except E Sig)
    (cs : List (List Inst)) (k : Nat) (e : E) (last : Option Sig)
    (hk : k < cs.length)
    (hfail : send (cs.get ⟨k, hk⟩) = Except.error e)
    (hok : ∀ j (hj : j < k), ∃ s,
      send (cs.get ⟨j, by omega⟩) = Except.ok s) :
    (submit_chunks send cs last : CancelRun PK Inst Sig E).events =
      (cs.take (k + 1)).map Ev.sendAndConfirm ∧
    (submit_chunks send cs last : CancelRun PK Inst Sig E).submitted =
      cs.take k ∧
    (submit_chunks send cs last : CancelRun PK Inst Sig E).result =
      Except.error e := by
  induction cs generalizing k last with
  | nil => exact absurd hk (by simp)
  | cons c cs ih =>
    cases k with
    | zero =>
      have hc : send c = Except.error e := hfail
      simp [submit_chunks, hc]
    | succ k =>
      obtain ⟨s, hs⟩ := hok 0 (Nat.succ_pos k)
      have hc : send c = Except.ok s := hs
      have hk2 : k < cs.length := by
        simp only [List.length_cons] at hk
        omega
      have ih2 := ih k (some s) hk2 hfail fun j hj => hok (j + 1) (by omega)
      simp [submit_chunks, hc, List.take_succ_cons, ih2.1, ih2.2.1, ih2.2.2]

theorem parse_open_orders_ok {PK E : Type} (parsePk : String → Option PK)
    (l : List String) (ps : List PK) (h : l.mapM parsePk = some ps) :
    (parse_open_orders parsePk l : Except (AppError E) (List PK)) =
      Except.ok ps := by
  induction l generalizing ps with
  | nil =>
    simp only [List.mapM_nil, pure] at h
    injection h with h
    rw [parse_open_orders, ← h]
  | cons a l ih =>
    rw [List.mapM_cons] at h
    cases hpa : parsePk a with
    | none => rw [hpa] at h; simp at h
    | some p =>
      rw [hpa] at h
      cases hml : l.mapM parsePk with
      | none => rw [hml] at h; simp at h
      | some ps2 =>
        rw [hml] at h
        have hps : p :: ps2 = ps := by
          simpa using h
        rw [← hps]
        simp only [parse_open_orders, hpa, ih ps2 hml]

theorem parse_open_orders_bad {PK E : Type} (parsePk : String → Option PK)
    (l : List String) (h : ∃ k ∈ l, parsePk k = none) :
    ∃ k ∈ l, parsePk k = none ∧
      (parse_open_orders parsePk l : Except (AppError E) (List PK)) =
        Except.error (AppError.invalidOpenOrders k) := by
  induction l with
  | nil => simp at h
  | cons a l ih =>
    cases hpa : parsePk a with
    | none =>
      exact ⟨a, List.mem_cons_self a l, hpa,
        by rw [parse_open_orders, hpa]⟩
    | some p =>
      have h2 : ∃ k ∈ l, parsePk k = none := by
        obtain ⟨k, hk, hkn⟩ := h
        rcases List.mem_cons.mp hk with hka | hkl
        · rw [hka, hpa] at hkn
          exact absurd hkn (by simp)
        · exact ⟨k, hkl, hkn⟩
      obtain ⟨k, hk, hkn, heq⟩ := ih h2
      exact ⟨k, List.mem_cons_of_mem a hk, hkn,
        by rw [parse_open_orders, hpa, heq]⟩

end Lemmas

/-- A concrete environment over Nat instantiations of every model type,
used to exercise the theorems on closed inputs.  Every collaborator
call succeeds; the submission oracle returns the chunk length as the
signature so distinct chunks get distinct signatures. -/
def baseEnv : MainEnv Nat Nat Nat Nat Nat Nat where
  parsePk := fun s => if s = "bad" then none else some 0
  clientNew := Except.ok ()
  ooKey := 99
  placeResult := Except.ok none
  cancelOrdersResult := Except.ok none
  settleResult := Except.ok none
  matchResult := Except.ok (true, 5)
  cspResult := Except.ok (true, 5)
  cspBidResult := Except.ok (true, 5)
  cspAskResult := Except.ok (true, 5)
  consumeResult := Except.ok (true, 5)
  consumePermResult := Except.ok (true, 5)
  scanQueue := fun _ => Except.ok []
  loadOrdersResult := Except.ok 0
  findOpenOrdersResult := Except.ok 0
  sendAndConfirm := fun c => Except.ok c.length
  fetchTransaction := fun _ => Except.ok ⟨some 0, some 0⟩
  eventQueueStats := Except.ok ⟨0, 0, 0, 0⟩

/-- baseEnv with a seven-instruction cancel batch pending. -/
def envSeven : MainEnv Nat Nat Nat Nat Nat Nat :=
  { baseEnv with
    cancelOrdersResult :=
      Except.ok (some (OrderReturnType.Instructions [0, 1, 2, 3, 4, 5, 6])) }

/-- envSeven with a submission oracle failing on the second chunk of a
per-transaction cap of 5. -/
def envSubmitFail : MainEnv Nat Nat Nat Nat Nat Nat :=
  { envSeven with
    sendAndConfirm := fun c =>
      if c = [5, 6] then Except.error 9 else Except.ok c.length }

/-- baseEnv with a failing transaction fetch. -/
def envFetchFail : MainEnv Nat Nat Nat Nat Nat Nat :=
  { baseEnv with fetchTransaction := fun _ => Except.error 3 }

/-- baseEnv with a fetch that succeeds but does not decode. -/
def envNoDecode : MainEnv Nat Nat Nat Nat Nat Nat :=
  { baseEnv with fetchTransaction := fun _ => Except.ok ⟨none, none⟩ }

/-- baseEnv with failing discovery queries. -/
def envDiscoveryFail : MainEnv Nat Nat Nat Nat Nat Nat :=
  { baseEnv with
    loadOrdersResult := Except.error 7
    findOpenOrdersResult := Except.error 7 }

theorem take_min_length {α : Type} (l : List α) (G : Nat) :
    l.take (min l.length G) = l.take G := by
  rcases Nat.le_total l.length G with h | h
  · rw [Nat.min_eq_left h, List.take_length, List.take_of_length_le h]
  · rw [Nat.min_eq_right h]

/-- C1: for every instruction batch of length L, global cap G and
per-transaction cap P at least 1, when every chunk submission succeeds
execute_limited_cancel submits exactly ceil(min(L,G)/P) transactions,
and the concatenation of the submitted chunks equals the first
min(L,G) instructions of the batch in original order. -/
theorem C1_batch_partition {PK Inst Sig Tx Meta E : Type}
    (env : MainEnv PK Inst Sig Tx Meta E) (G P : Nat) (insts : List Inst)
    (L : Nat) (hL : insts.length = L) (hP : 1 ≤ P)
    (hc : env.cancelOrdersResult =
      Except.ok (some (OrderReturnType.Instructions insts)))
    (hs : ∀ c, ∃ s, env.sendAndConfirm c = Except.ok s) :
    (execute_limited_cancel env G P).submitted.length =
      (min L G + P - 1) / P ∧
    (execute_limited_cancel env G P).submitted.flatten =
      insts.take (min L G) := by
  subst hL
  have hmax : Nat.max P 1 = P := Nat.max_eq_left hP
  simp only [execute_limited_cancel, hc]
  by_cases hemp : insts.isEmpty
  · have hnil : insts = [] := List.isEmpty_iff.mp hemp
    subst hnil
    simp only [List.isEmpty_nil, ite_true]
    refine ⟨?_, by simp⟩
    simp only [List.length_nil, Nat.zero_min, Nat.zero_add]
    exact (Nat.div_eq_of_lt (by omega)).symm
  · have hf : insts.isEmpty = false := by
      cases hbe : insts.isEmpty
      · rfl
      · exact absurd hbe hemp
    simp only [hf, Bool.false_eq_true, if_false, hmax]
    have hok := @submit_chunks_all_ok PK Inst Sig E env.sendAndConfirm
      (chunksOf P (insts.take G)) none (fun c _ => hs c)
    refine ⟨?_, ?_⟩
    · rw [hok.1, chunksOf_length P (by omega), List.length_take, Nat.min_comm]
    · rw [hok.1, chunksOf_flatten]
      exact (take_min_length insts G).symm

/-- C1 witness, the scenario of the claim: seven pending cancel
instructions with global cap 5 and per-transaction cap 5 yield exactly
one submitted transaction carrying the first five instructions. -/
theorem C1_batch_partition_witness :
    (execute_limited_cancel envSeven 5 5).submitted.length = 1 ∧
    (execute_limited_cancel envSeven 5 5).submitted.flatten =
      [0, 1, 2, 3, 4] := by
  have h := C1_batch_partition envSeven 5 5 [0, 1, 2, 3, 4, 5, 6] 7 rfl
    (by omega) rfl (fun c => ⟨c.length, rfl⟩)
  simpa using h

/-- C2: execute_limited_cancel returns the signature of the last
successfully submitted chunk, and returns Ok(None) with zero
submissions whenever the cancel action produced no result, produced a
signature instead of an instruction batch, or produced an empty batch. -/
theorem C2_last_signature {PK Inst Sig Tx Meta E : Type}
    (env : MainEnv PK Inst Sig Tx Meta E) (G P : Nat) :
    (isNoBatch env.cancelOrdersResult = true →
      (execute_limited_cancel env G P).submitted = [] ∧
      (execute_limited_cancel env G P).result = Except.ok none) ∧
    (∀ s, (execute_limited_cancel env G P).result = Except.ok (some s) →
      ∃ c, (execute_limited_cancel env G P).submitted.getLast? = some c ∧
        env.sendAndConfirm c = Except.ok s) := by
  constructor
  · intro hnb
    cases hres : env.cancelOrdersResult with
    | error e => rw [hres] at hnb; simp [isNoBatch] at hnb
    | ok oret =>
      cases oret with
      | none => simp [execute_limited_cancel, hres]
      | some ort =>
        cases ort with
        | Signature sg => simp [execute_limited_cancel, hres]
        | Instructions insts =>
          rw [hres] at hnb
          have hemp : insts.isEmpty = true := hnb
          simp [execute_limited_cancel, hres, hemp]
  · intro s hs
    cases hres : env.cancelOrdersResult with
    | error e => simp [execute_limited_cancel, hres] at hs
    | ok oret =>
      cases oret with
      | none => simp [execute_limited_cancel, hres] at hs
      | some ort =>
        cases ort with
        | Signature sg => simp [execute_limited_cancel, hres] at hs
        | Instructions insts =>
          by_cases hemp : insts.isEmpty
          · simp [execute_limited_cancel, hres, hemp] at hs
          · have hf : insts.isEmpty = false := by
              cases hbe : insts.isEmpty
              · rfl
              · exact absurd hbe hemp
            simp only [execute_limited_cancel, hres, hf,
              Bool.false_eq_true, if_false] at hs ⊢
            rcases submit_chunks_last_sig env.sendAndConfirm
              (chunksOf (Nat.max P 1) (insts.take G)) none s hs with
              ⟨c, hlast, hsend⟩ | ⟨_, hnone⟩
            · exact ⟨c, hlast, hsend⟩
            · exact absurd hnone (by simp)

/-- C2 witness: on envSeven with both caps 5 the submitted chunk has
length 5 and its signature (the oracle returns the chunk length) is
reported; on baseEnv the cancel action returns no result so no chunk is
submitted and no signature is returned. -/
theorem C2_last_signature_witness :
    ((execute_limited_cancel baseEnv 5 5).submitted = [] ∧
     (execute_limited_cancel baseEnv 5 5).result = Except.ok none) ∧
    (∃ c, (execute_limited_cancel envSeven 5 5).submitted.getLast? = some c ∧
      envSeven.sendAndConfirm c = Except.ok 5) := by
  constructor
  · exact (C2_last_signature baseEnv 5 5).1 rfl
  · apply (C2_last_signature envSeven 5 5).2 5
    simp [execute_limited_cancel, envSeven, baseEnv, submit_chunks]
    rw [chunksOf]
    simp [submit_chunks]
    rw [chunksOf]
    simp [submit_chunks]

/-- C3: if submission of chunk k fails (0-based index here, chunk k+1 in
the 1-based language of the spec) while every earlier chunk succeeds,
then exactly the earlier chunks were submitted, no later chunk is ever
attempted (the only submission events are for chunks up to and
including the failing one), and the failure is propagated as the result
of execute_limited_cancel. -/
theorem C3_fail_fast {PK Inst Sig Tx Meta E : Type}
    (env : MainEnv PK Inst Sig Tx Meta E) (G P : Nat) (insts : List Inst)
    (k : Nat) (e : E)
    (hc : env.cancelOrdersResult =
      Except.ok (some (OrderReturnType.Instructions insts)))
    (hne : insts.isEmpty = false)
    (hk : k < (chunksOf (Nat.max P 1) (insts.take G)).length)
    (hfail : env.sendAndConfirm
      ((chunksOf (Nat.max P 1) (insts.take G)).get ⟨k, hk⟩) =
        Except.error e)
    (hok : ∀ j (hj : j < k), ∃ s, env.sendAndConfirm
      ((chunksOf (Nat.max P 1) (insts.take G)).get ⟨j, by omega⟩) =
        Except.ok s) :
    (execute_limited_cancel env G P).submitted =
      (chunksOf (Nat.max P 1) (insts.take G)).take k ∧
    (execute_limited_cancel env G P).events =
      Ev.cancelOrders false ::
        ((chunksOf (Nat.max P 1) (insts.take G)).take (k + 1)).map
          Ev.sendAndConfirm ∧
    (execute_limited_cancel env G P).result = Except.error e := by
  have hrun := @submit_chunks_fail_at PK Inst Sig E env.sendAndConfirm
    (chunksOf (Nat.max P 1) (insts.take G)) k e none hk hfail hok
  simp only [execute_limited_cancel, hc, hne, Bool.false_eq_true, if_false]
  exact ⟨hrun.2.1, by rw [hrun.1], hrun.2.2⟩

/-- C3 witness: with seven pending instructions, a global cap of 10 and a
per-transaction cap of 5, the chunks are the first five and the last
two instructions; when the second chunk fails only the first chunk was
submitted, both chunks and nothing beyond them were attempted, and the
error is propagated. -/
theorem C3_fail_fast_witness :
    (execute_limited_cancel envSubmitFail 10 5).submitted =
      [[0, 1, 2, 3, 4]] ∧
    (execute_limited_cancel envSubmitFail 10 5).events =
      [Ev.cancelOrders false, Ev.sendAndConfirm [0, 1, 2, 3, 4],
        Ev.sendAndConfirm [5, 6]] ∧
    (execute_limited_cancel envSubmitFail 10 5).result = Except.error 9 := by
  have htake : ([0, 1, 2, 3, 4, 5, 6] : List Nat).take 10 =
      [0, 1, 2, 3, 4, 5, 6] := rfl
  have hcs : chunksOf (Nat.max 5 1) (([0, 1, 2, 3, 4, 5, 6] : List Nat).take 10) =
      [[0, 1, 2, 3, 4], [5, 6]] := by
    rw [htake]
    rw [chunksOf]
    simp
    rw [chunksOf]
    simp
    rw [chunksOf]
  have hk : 1 < (chunksOf (Nat.max 5 1)
      (([0, 1, 2, 3, 4, 5, 6] : List Nat).take 10)).length := by
    rw [hcs]
    simp
  have h := C3_fail_fast envSubmitFail 10 5 [0, 1, 2, 3, 4, 5, 6] 1 9 rfl rfl
    hk (by rw [List.get_of_eq hcs]; rfl)
    (fun j hj => by
      refine ⟨5, ?_⟩
      have hj0 : j = 0 := by omega
      subst hj0
      rw [List.get_of_eq hcs]
      rfl)
  rw [hcs] at h
  simpa using h

/-- C4: the open-orders resolution used by Consume and
ConsumePermissioned yields the parsed explicit list in order when the
caller supplied a non-empty list that parses; otherwise the scan result
when the explicit list is empty and the scan is non-empty; otherwise
the singleton of the callers own open-orders key; and an explicit list
containing an unparseable entry fails the whole resolution with an
error naming an offending entry. -/
theorem C4_resolver {PK Inst Sig Tx Meta E : Type}
    (env : MainEnv PK Inst Sig Tx Meta E) (limit : Nat)
    (explicit : List String) :
    (∀ ps, explicit ≠ [] → explicit.mapM env.parsePk = some ps →
      (resolve_open_orders env limit explicit).2 = Except.ok ps) ∧
    (∀ owners, explicit = [] → env.scanQueue limit = Except.ok owners →
      owners ≠ [] →
      (resolve_open_orders env limit explicit).2 = Except.ok owners) ∧
    (explicit = [] → env.scanQueue limit = Except.ok [] →
      (resolve_open_orders env limit explicit).2 =
        Except.ok [env.ooKey]) ∧
    ((∃ k ∈ explicit, env.parsePk k = none) →
      ∃ k ∈ explicit, env.parsePk k = none ∧
        (resolve_open_orders env limit explicit).2 =
          Except.error (AppError.invalidOpenOrders k)) := by
  refine ⟨?_, ?_, ?_, ?_⟩
  · intro ps hne hmap
    have hf : explicit.isEmpty = false := by
      cases explicit
      · exact absurd rfl hne
      · rfl
    simp only [resolve_open_orders, hf, Bool.false_eq_true, if_false]
    exact parse_open_orders_ok env.parsePk explicit ps hmap
  · intro owners hnil hscan hone
    subst hnil
    have hf : (owners.isEmpty : Bool) = false := by
      cases owners
      · exact absurd rfl hone
      · rfl
    simp [resolve_open_orders, hscan, hf]
  · intro hnil hscan
    subst hnil
    simp [resolve_open_orders, hscan]
  · intro hbad
    have hne : explicit ≠ [] := by
      obtain ⟨k, hk, _⟩ := hbad
      intro hnil
      subst hnil
      simp at hk
    have hf : explicit.isEmpty = false := by
      cases explicit
      · exact absurd rfl hne
      · rfl
    obtain ⟨k, hk, hkn, heq⟩ :=
      @parse_open_orders_bad PK E env.parsePk explicit hbad
    refine ⟨k, hk, hkn, ?_⟩
    simp only [resolve_open_orders, hf, Bool.false_eq_true, if_false]
    exact heq

/-- C4 witness: with explicit entries that parse the resolver returns
them in order; with an empty list and an empty scan it returns the own
key; and an explicit bad entry fails the resolution naming it. -/
theorem C4_resolver_witness :
    ((resolve_open_orders baseEnv 10 ["a", "b"]).2 = Except.ok [0, 0]) ∧
    ((resolve_open_orders baseEnv 10 []).2 = Except.ok [99]) ∧
    (∃ k ∈ ["a", "bad"], baseEnv.parsePk k = none ∧
      (resolve_open_orders baseEnv 10 ["a", "bad"]).2 =
        Except.error (AppError.invalidOpenOrders k)) := by
  refine ⟨?_, ?_, ?_⟩
  · exact (C4_resolver baseEnv 10 ["a", "b"]).1 [0, 0] (by simp) (by decide)
  · exact (C4_resolver baseEnv 10 []).2.2.1 rfl rfl
  · exact (C4_resolver baseEnv 10 ["a", "bad"]).2.2.2
      ⟨"bad", by decide, by decide⟩

/-- C6: for every signature and every environment (so regardless of
whether the fetch succeeds, fails, or fails to decode), the trace of
show_tx begins with the fixed CRANK_DELAY_MS sleep followed by the
transaction fetch: the delay is always performed before any fetch
attempt. -/
theorem C6_delay_before_fetch {PK Inst Sig Tx Meta E : Type}
    (env : MainEnv PK Inst Sig Tx Meta E) (sg : Sig) :
    ∃ rest, (show_tx env sg).1 =
      Ev.sleep CRANK_DELAY_MS :: Ev.fetchTransaction sg :: rest :=
  ⟨_, rfl⟩

/-- C7: when the transaction fetch fails, show_tx logs the condition and
returns Ok: the fetch failure is never escalated. -/
theorem C7_fetch_error_tolerated {PK Inst Sig Tx Meta E : Type}
    (env : MainEnv PK Inst Sig Tx Meta E) (sg : Sig) (e : E)
    (h : env.fetchTransaction sg = Except.error e) :
    (show_tx env sg).2 = Outcome.ok ∧ Ev.logError ∈ (show_tx env sg).1 := by
  simp [show_tx, h]

/-- C7 witness at a concrete failing fetch. -/
theorem C7_fetch_error_tolerated_witness :
    (show_tx envFetchFail 0).2 = Outcome.ok ∧
    Ev.logError ∈ (show_tx envFetchFail 0).1 :=
  C7_fetch_error_tolerated envFetchFail 0 3 rfl

/-- C10: when the fetch succeeds but the fetched transaction fails to
decode, show_tx panics with the expect message rather than logging and
continuing. -/
theorem C10_decode_panics {PK Inst Sig Tx Meta E : Type}
    (env : MainEnv PK Inst Sig Tx Meta E) (sg : Sig)
    (ftx : FetchedTx Tx Meta)
    (h1 : env.fetchTransaction sg = Except.ok ftx)
    (h2 : ftx.decoded = none) :
    (show_tx env sg).2 = Outcome.panicked "Successful decode" := by
  simp [show_tx, h1, h2]

/-- C10 witness at a concrete fetched-but-undecodable transaction. -/
theorem C10_decode_panics_witness :
    (show_tx envNoDecode 0).2 = Outcome.panicked "Successful decode" :=
  C10_decode_panics envNoDecode 0 ⟨none, none⟩ rfl rfl

/-- C8: for the LoadOrders and FindOpenOrders intents a failing
collaborator query is non-fatal: the error is printed and main exits
cleanly with Ok. -/
theorem C8_discovery_nonfatal {PK Inst Sig Tx Meta E F : Type}
    (env : MainEnv PK Inst Sig Tx Meta E) (cli : Cli F) (pk : PK) (e : E)
    (hm : env.parsePk cli.market_id = some pk)
    (hc : env.clientNew = Except.ok ()) :
    (cli.command = Commands.LoadOrders →
      env.loadOrdersResult = Except.error e →
      runMain env cli = ([Ev.setProgramId cli.program_id, Ev.clientNew,
        Ev.loadOrders, Ev.printErr], Outcome.ok)) ∧
    (cli.command = Commands.FindOpenOrders →
      env.findOpenOrdersResult = Except.error e →
      runMain env cli = ([Ev.setProgramId cli.program_id, Ev.clientNew,
        Ev.findOpenOrders, Ev.printErr], Outcome.ok)) := by
  cases cli with
  | mk v mid pid cmd =>
    constructor
    · intro hcmd herr
      have hcmd2 : cmd = Commands.LoadOrders := hcmd
      subst hcmd2
      simp [runMain, hm, hc, herr]
    · intro hcmd herr
      have hcmd2 : cmd = Commands.FindOpenOrders := hcmd
      subst hcmd2
      simp [runMain, hm, hc, herr]

/-- C8 witness at concrete failing discovery queries. -/
theorem C8_discovery_nonfatal_witness :
    runMain envDiscoveryFail
      (⟨0, "m", "p", Commands.LoadOrders⟩ : Cli Nat) =
      ([Ev.setProgramId "p", Ev.clientNew, Ev.loadOrders, Ev.printErr],
        Outcome.ok) ∧
    runMain envDiscoveryFail
      (⟨0, "m", "p", Commands.FindOpenOrders⟩ : Cli Nat) =
      ([Ev.setProgramId "p", Ev.clientNew, Ev.findOpenOrders, Ev.printErr],
        Outcome.ok) := by
  constructor
  · exact (C8_discovery_nonfatal envDiscoveryFail
      (⟨0, "m", "p", Commands.LoadOrders⟩ : Cli Nat) 0 7 rfl rfl).1 rfl rfl
  · exact (C8_discovery_nonfatal envDiscoveryFail
      (⟨0, "m", "p", Commands.FindOpenOrders⟩ : Cli Nat) 0 7 rfl rfl).2 rfl rfl

/-- C9: any side string other than bid or ask (ASCII case-insensitively)
falls through the wildcard match arm to Bid rather than being rejected,
and the Place intent then invokes the place call with the Bid side. -/
theorem C9_side_fallback {PK Inst Sig Tx Meta E F : Type}
    (env : MainEnv PK Inst Sig Tx Meta E) (cli : Cli F) (arg : PlaceArgs F)
    (pk : PK)
    (hcmd : cli.command = Commands.Place arg)
    (h1 : asciiLower arg.side ≠ "bid")
    (h2 : asciiLower arg.side ≠ "ask")
    (hm : env.parsePk cli.market_id = some pk)
    (hc : env.clientNew = Except.ok ()) :
    side_of_string arg.side = Side.Bid ∧
    ∃ rest, (runMain env cli).1 =
      Ev.setProgramId cli.program_id :: Ev.clientNew ::
        Ev.placeLimitOrder Side.Bid arg.execute :: rest := by
  have hsd : side_of_string arg.side = Side.Bid := by
    simp [side_of_string, h1, h2]
  refine ⟨hsd, ?_⟩
  cases cli with
  | mk v mid pid cmd =>
    have hcmd2 : cmd = Commands.Place arg := hcmd
    subst hcmd2
    cases hres : env.placeResult with
    | error e =>
      refine ⟨[], ?_⟩
      simp [runMain, hm, hc, hres, hsd]
    | ok oret =>
      cases oret with
      | none =>
        refine ⟨[], ?_⟩
        simp [runMain, hm, hc, hres, hsd]
      | some ort =>
        refine ⟨(handle_order_return env ort).1, ?_⟩
        simp [runMain, hm, hc, hres, hsd]

/-- C9 witness: side string foo on a Place invocation places a bid. -/
theorem C9_side_fallback_witness :
    side_of_string "foo" = Side.Bid ∧
    ∃ rest, (runMain baseEnv
      (⟨0, "m", "p", Commands.Place ⟨0, "foo", 0, false, 0⟩⟩ : Cli Nat)).1 =
      Ev.setProgramId "p" :: Ev.clientNew ::
        Ev.placeLimitOrder Side.Bid false :: rest :=
  C9_side_fallback baseEnv
    (⟨0, "m", "p", Commands.Place ⟨0, "foo", 0, false, 0⟩⟩ : Cli Nat)
    ⟨0, "foo", 0, false, 0⟩ 0 rfl (by decide) (by decide) rfl rfl

/-- C5 counterexample to the claim as stated: an invocation of Consume
carrying the malformed account reference bad does abort with an error
naming that entry, but only after the client construction — a network
call — has already happened, so the abort is not before any network
call is made. -/
theorem C5_counterexample :
    ((runMain baseEnv
      (⟨0, "m", "p", Commands.Consume ⟨10, ["bad"]⟩⟩ : Cli Nat)).2 =
      Outcome.error (AppError.invalidOpenOrders "bad")) ∧
    (runMain baseEnv
      (⟨0, "m", "p", Commands.Consume ⟨10, ["bad"]⟩⟩ : Cli Nat)).1.filter
        isNetworkCall ≠ [] := by
  constructor
  · simp [runMain, baseEnv, resolve_open_orders, parse_open_orders]
  · simp [runMain, baseEnv, resolve_open_orders, parse_open_orders,
      isNetworkCall]

/-- C5 amended: an unparseable market identifier aborts the invocation
before any event at all except the process-environment write (so in
particular before any network call), propagating the external parse
error; a malformed open-orders account reference on Consume or
ConsumePermissioned aborts with an error naming an offending entry
before any further collaborator call, the sole prior network
interaction being the client construction. -/
theorem C5_fail_fast_amended {PK Inst Sig Tx Meta E F : Type}
    (env : MainEnv PK Inst Sig Tx Meta E) (cli : Cli F) :
    (env.parsePk cli.market_id = none →
      runMain env cli = ([Ev.setProgramId cli.program_id],
        Outcome.error AppError.marketParseError)) ∧
    (∀ limit explicit pk,
      (cli.command = Commands.Consume ⟨limit, explicit⟩ ∨
       cli.command = Commands.ConsumePermissioned ⟨limit, explicit⟩) →
      env.parsePk cli.market_id = some pk →
      env.clientNew = Except.ok () →
      (∃ k ∈ explicit, env.parsePk k = none) →
      ∃ k ∈ explicit, env.parsePk k = none ∧
        runMain env cli = ([Ev.setProgramId cli.program_id, Ev.clientNew],
          Outcome.error (AppError.invalidOpenOrders k))) := by
  cases cli with
  | mk v mid pid cmd =>
    constructor
    · intro hm
      simp [runMain, hm]
    · intro limit explicit pk hcmd hm hc hbad
      have hne : explicit ≠ [] := by
        obtain ⟨k, hk, _⟩ := hbad
        intro hnil
        subst hnil
        simp at hk
      have hf : explicit.isEmpty = false := by
        cases explicit
        · exact absurd rfl hne
        · rfl
      obtain ⟨k, hk, hkn, heq⟩ :=
        @parse_open_orders_bad PK E env.parsePk explicit hbad
      refine ⟨k, hk, hkn, ?_⟩
      rcases hcmd with hcmd | hcmd
      · have hcmd2 : cmd = Commands.Consume ⟨limit, explicit⟩ := hcmd
        subst hcmd2
        simp [runMain, hm, hc, resolve_open_orders, hf, heq]
      · have hcmd2 : cmd = Commands.ConsumePermissioned ⟨limit, explicit⟩ :=
          hcmd
        subst hcmd2
        simp [runMain, hm, hc, resolve_open_orders, hf, heq]

/-- C5 amended witness: an unparseable market id (the oracle rejects the
string bad) aborts with no network event; a bad explicit open-orders
entry aborts right after client construction naming the entry. -/
theorem C5_fail_fast_amended_witness :
    (runMain baseEnv (⟨0, "bad", "p", Commands.Info⟩ : Cli Nat) =
      ([Ev.setProgramId "p"], Outcome.error AppError.marketParseError)) ∧
    (∃ k ∈ ["bad"], baseEnv.parsePk k = none ∧
      runMain baseEnv
        (⟨0, "m", "p", Commands.ConsumePermissioned ⟨3, ["bad"]⟩⟩ :
          Cli Nat) =
        ([Ev.setProgramId "p", Ev.clientNew],
          Outcome.error (AppError.invalidOpenOrders k))) := by
  constructor
  · exact (C5_fail_fast_amended baseEnv
      (⟨0, "bad", "p", Commands.Info⟩ : Cli Nat)).1 rfl
  · exact (C5_fail_fast_amended baseEnv
      (⟨0, "m", "p", Commands.ConsumePermissioned ⟨3, ["bad"]⟩⟩ :
        Cli Nat)).2 3 ["bad"] 0 (Or.inr rfl) rfl rfl
      ⟨"bad", by decide, by decide⟩

end OpenBook
